import Mathlib

/-!
Verification of the Onboardly workflow state synchronization service.

This file shallowly embeds the parts of the source relevant to the
claims under scrutiny:

* the Completion Heuristic of the content script
  (src/unnamed/part_000, lines 516 and 606-683): sub-instruction
  completion gating on strong-completion phrases plus proof;
* the Event Ingestion Gateway of the backend (src/backend/index.js):
  the /track/extension-usage handler with its flag flips, the poll
  snapshot map workflowStates, the SSE pushes, the /onboard run
  creation, the per-endpoint lookup disciplines, and sendProgress.

Strings are modelled as List Char; JavaScript toLowerCase is modelled
per character by Char.toLower (all the relevant literals are ASCII).
JavaScript Map objects are modelled as association lists with
exact-key get/set/delete mirroring Map.get/Map.set/Map.delete.
-/

namespace Onboardly

/-! ## Text utilities (JS String.prototype.includes / toLowerCase) -/

/-- Character list obtained by lowercasing every character, the model of
JS `s.toLowerCase()`. -/
def lowerL (s : List Char) : List Char := s.map Char.toLower

/-- `firstSeg needle hay` holds when `needle` occurs at the very front
of `hay`. -/
def firstSeg : List Char → List Char → Bool
  | [], _ => true
  | _ :: _, [] => false
  | a :: as, b :: bs => a == b && firstSeg as bs

/-- `containsSub hay needle` is the model of JS `hay.includes(needle)`:
`needle` occurs contiguously somewhere in `hay`. -/
def containsSub (hay needle : List Char) : Bool :=
  match hay with
  | [] => needle.isEmpty
  | _ :: t => firstSeg needle hay || containsSub t needle

/-! ## Completion Heuristic (src/unnamed/part_000, lines 516, 606-683)

One client observation is the AI response body: a `feedback` judgment
text, an optional `proof` string, and an `error` flag.  The module
state relevant to a single evaluation is the number of sub-instructions
of the active task together with the set `completedSubInstructions`
(1-based indices), modelled as a list with membership semantics. -/

/-- One client-supplied observation (the parsed `data` of the AI
analysis response in the source).  `none` models a missing (undefined
or null) field; an empty list models the empty string, which is falsy
in the source. -/
structure Observation where
  feedback : Option (List Char)
  proof : Option (List Char)
  error : Bool
deriving DecidableEq

/-- Decision of one heuristic evaluation, as in the spec contract:
either nothing changes or exactly one sub-unit is advanced. -/
inductive CompletionDecision
  | NoChange
  | AdvanceSubUnit (index : Nat) (proof : List Char)
deriving DecidableEq

/-- Source line 626-632: the feedback (already lowercased) must contain
one of five emphatic completion phrase combinations. -/
def hasStrongCompletion (fl : List Char) : Bool :=
  (containsSub fl "great!".toList && containsSub fl "step".toList) ||
  (containsSub fl "perfect!".toList && containsSub fl "step".toList) ||
  (containsSub fl "excellent!".toList && containsSub fl "step".toList) ||
  (containsSub fl "completed".toList && containsSub fl "!".toList) ||
  (containsSub fl "done!".toList && containsSub fl "step".toList)

/-- Source line 635: `data.proof && data.proof.length > 10`.  A missing
or empty proof is falsy; otherwise its length must exceed 10. -/
def hasProofB (o : Observation) : Bool :=
  match o.proof with
  | some p => decide (10 < p.length)
  | none => false

/-- Source line 636: the explicit proof marker looked up inside the
lowercased feedback text. -/
def proofMarker : List Char := "proof:".toList

/-- Source line 656: `data.proof || (a fixed default)`, recorded at the
moment a sub-instruction is marked done. -/
def proofOrDefault (o : Observation) : List Char :=
  match o.proof with
  | some p => if p.isEmpty then "AI verified completion".toList else p
  | none => "AI verified completion".toList

/-- Helper recursion behind `nextIncompleteStep`: scan indices
`i, i+1, ...` (with `k` indices left) for the first whose 1-based
number is not in `completed`. -/
def nextIncompleteFrom (completed : List Nat) : Nat → Nat → Option Nat
  | 0, _ => none
  | k + 1, i =>
      if completed.contains (i + 1) then nextIncompleteFrom completed k (i + 1)
      else some i

/-- Source line 614: `subInstructions.findIndex((_, idx) =>
!completedSubInstructions.has(idx + 1))`, with `none` for -1 and `n`
the number of sub-instructions of the active task. -/
def nextIncompleteStep (n : Nat) (completed : List Nat) : Option Nat :=
  nextIncompleteFrom completed n 0

/-- Source lines 614-681: one evaluation of an observation against the
active task.  The guard order mirrors the source: a target
sub-instruction must exist and the feedback must be truthy (line 622);
the strong completion phrase must co-occur with proof (line 649); a
duplicate completion is suppressed (line 654). -/
def evaluate (n : Nat) (completed : List Nat) (o : Observation) :
    CompletionDecision :=
  match nextIncompleteStep n completed, o.feedback with
  | some idx, some f =>
      if f.isEmpty then .NoChange
      else if hasStrongCompletion (lowerL f) &&
              (hasProofB o || containsSub (lowerL f) proofMarker) then
        if completed.contains (idx + 1) then .NoChange
        else .AdvanceSubUnit idx (proofOrDefault o)
      else .NoChange
  | _, _ => .NoChange

/-- Source line 655: applying the decision to the completed set
(`completedSubInstructions.add(stepToComplete)` on advance). -/
def applyDecision (completed : List Nat) : CompletionDecision → List Nat
  | .NoChange => completed
  | .AdvanceSubUnit idx _ => completed ++ [idx + 1]

/-- The full state effect of one evaluation call. -/
def evalMark (n : Nat) (completed : List Nat) (o : Observation) : List Nat :=
  applyDecision completed (evaluate n completed o)

/-- A successful scan yields the first index, counted from the start
index, whose 1-based number is not yet completed. -/
lemma nextIncompleteFrom_eq_some (completed : List Nat) :
    ∀ (k s i : Nat), nextIncompleteFrom completed k s = some i →
      s ≤ i ∧ i < s + k ∧ completed.contains (i + 1) = false ∧
      ∀ j, s ≤ j → j < i → completed.contains (j + 1) = true := by
  intro k
  induction k with
  | zero => intro s i h; simp [nextIncompleteFrom] at h
  | succ k ih =>
      intro s i h
      by_cases hc : completed.contains (s + 1) = true
      · rw [nextIncompleteFrom, if_pos hc] at h
        obtain ⟨h1, h2, h3, h4⟩ := ih (s + 1) i h
        refine ⟨by omega, by omega, h3, ?_⟩
        intro j hj1 hj2
        rcases Nat.eq_or_lt_of_le hj1 with heq | hlt
        · rw [← heq]; exact hc
        · exact h4 j hlt hj2
      · rw [nextIncompleteFrom, if_neg hc] at h
        cases h
        refine ⟨Nat.le_refl _, by omega, by simpa using hc, ?_⟩
        intro j hj1 hj2
        omega

/-- An advancing evaluation pinpoints the target of
`nextIncompleteStep`. -/
lemma evaluate_advance_target (n : Nat) (completed : List Nat)
    (o : Observation) (idx : Nat) (pr : List Char)
    (hev : evaluate n completed o = .AdvanceSubUnit idx pr) :
    nextIncompleteStep n completed = some idx := by
  rcases hn : nextIncompleteStep n completed with _ | i <;>
    rcases hf : o.feedback with _ | f <;>
      simp only [evaluate, hn, hf] at hev <;>
        try cases hev
  split_ifs at hev
  all_goals cases hev
  rfl

/-- Claim C1: with no explicit proof marker in the judgment text and a
proof field that is missing or at most 10 characters, every evaluation
returns NoChange even when a strong-completion phrase is present; and a
sub-unit is advanced only when the strong-completion pattern matched
and the observation carried proof (a populated proof field of length
above 10 or a proof marker inside the judgment text). -/
theorem heuristic_proof_gate (n : Nat) (completed : List Nat)
    (o : Observation) :
    ((∀ p, o.proof = some p → p.length ≤ 10) →
      (∀ f, o.feedback = some f →
        containsSub (lowerL f) proofMarker = false) →
      evaluate n completed o = .NoChange) ∧
    (∀ idx pr, evaluate n completed o = .AdvanceSubUnit idx pr →
      ∃ f, o.feedback = some f ∧ hasStrongCompletion (lowerL f) = true ∧
        (hasProofB o = true ∨ containsSub (lowerL f) proofMarker = true)) := by
  constructor
  · intro hshort hmark
    have hp : hasProofB o = false := by
      cases hpr : o.proof with
      | none => simp [hasProofB, hpr]
      | some p =>
          have hle := hshort p hpr
          simp [hasProofB, hpr]
          omega
    rcases hn : nextIncompleteStep n completed with _ | i <;>
      rcases hf : o.feedback with _ | f <;>
        simp only [evaluate, hn, hf]
    have hm := hmark f hf
    by_cases he : f.isEmpty = true
    · simp [he]
    · simp [he, hp, hm]
  · intro idx pr hev
    rcases hn : nextIncompleteStep n completed with _ | i <;>
      rcases hf : o.feedback with _ | f <;>
        simp only [evaluate, hn, hf] at hev <;>
          try cases hev
    refine ⟨f, rfl, ?_⟩
    by_cases he : f.isEmpty = true
    · simp [he] at hev
    · simp only [he, if_false, Bool.false_eq_true] at hev
      by_cases hg : (hasStrongCompletion (lowerL f) &&
          (hasProofB o || containsSub (lowerL f) proofMarker)) = true
      · have hg2 : hasStrongCompletion (lowerL f) = true ∧
            (hasProofB o = true ∨ containsSub (lowerL f) proofMarker = true) := by
          simpa using hg
        exact hg2
      · simp [hg] at hev

/-- Concrete check for the first component of Claim C1: a
strong-completion judgment without any proof at all yields NoChange for
a 3 sub-unit step with nothing completed. -/
theorem heuristic_proof_gate_check :
    evaluate 3 [] ⟨some "Great! You completed the step".toList, none, false⟩
      = .NoChange := by
  exact (heuristic_proof_gate 3 []
    ⟨some "Great! You completed the step".toList, none, false⟩).1
    (by intro p hp; cases hp)
    (by intro f hf; cases hf; decide)

/-- Claim C2: a single evaluation call either leaves the completed set
unchanged or marks exactly one additional sub-unit, and that sub-unit
is the first not-done one: every strictly smaller index is already
done. -/
theorem heuristic_single_ordered_advance (n : Nat) (completed : List Nat)
    (o : Observation) :
    evalMark n completed o = completed ∨
    ∃ i, i < n ∧ completed.contains (i + 1) = false ∧
      (∀ j, j < i → completed.contains (j + 1) = true) ∧
      evalMark n completed o = completed ++ [i + 1] := by
  rcases hev : evaluate n completed o with _ | ⟨idx, pr⟩
  · left
    simp [evalMark, hev, applyDecision]
  · right
    have hnext := evaluate_advance_target n completed o idx pr hev
    obtain ⟨h1, h2, h3, h4⟩ :=
      nextIncompleteFrom_eq_some completed n 0 idx hnext
    refine ⟨idx, by omega, h3, ?_, by simp [evalMark, hev, applyDecision]⟩
    intro j hj
    exact h4 j (Nat.zero_le _) hj

/-! ## Session Registry data and the tracking state machine
(src/backend/index.js, lines 50-56, 174-189, 1088-1222)

One run is the record stored in the `usageTracking` map.  The fields
`firstActivationAt`, `trainingCompletedAt` and `extensionEvents` are
absent from the freshly created record in the source and attached on
first use; they are modelled as fields that start at `none` / `[]`. -/

/-- Keys are JS strings (intern email addresses). -/
abbrev Key := List Char

/-- One raw progress event as received by /track/extension-usage:
`{ internEmail, event, website, step, timestamp }` minus the email,
which selects the run.  The stored timestamp stands for both the
supplied value and the `new Date()` fallback. -/
structure EventRecord where
  event : List Char
  website : List Char
  stepName : List Char
  timestamp : Nat
deriving DecidableEq

/-- Event kind string for extension activation. -/
def evAct : List Char := "extension_activated".toList

/-- Event kind string for training completion. -/
def evDone : List Char := "training_completed".toList

/-- The per-run record of the `usageTracking` map. -/
structure Tracking where
  internEmail : Key
  internName : List Char
  taskConfigs : Option (List (Key × List Char))
  websiteConfig : List Char
  extensionActivated : Bool
  trainingInProgress : Bool
  trainingCompleted : Bool
  createdAt : Nat
  firstActivationAt : Option Nat
  trainingCompletedAt : Option Nat
  extensionEvents : List EventRecord
deriving DecidableEq

/-- The record stored by /onboard (lines 174-183): all flags 0, no
activation or completion timestamp, no events yet. -/
def freshTracking (email : Key) (name : List Char)
    (cfgs : List (Key × List Char)) (wcfg : List Char) (now : Nat) :
    Tracking :=
  { internEmail := email
    internName := name
    taskConfigs := some cfgs
    websiteConfig := wcfg
    extensionActivated := false
    trainingInProgress := false
    trainingCompleted := false
    createdAt := now
    firstActivationAt := none
    trainingCompletedAt := none
    extensionEvents := [] }

/-- The flag effect of one /track/extension-usage request on the run
record (lines 1126-1137 and 1192-1195): the event is always appended to
the log; the first activation flips `extensionActivated` and
`trainingInProgress` to 1 and stamps `firstActivationAt`; a
training-completed event unconditionally flips `trainingInProgress` to
0 and `trainingCompleted` to 1. -/
def trackEvent (t : Tracking) (e : EventRecord) : Tracking :=
  let t1 := { t with extensionEvents := t.extensionEvents ++ [e] }
  let t2 :=
    if !t1.extensionActivated && e.event == evAct then
      { t1 with extensionActivated := true
                firstActivationAt := some e.timestamp
                trainingInProgress := true }
    else t1
  if e.event == evDone then
    { t2 with trainingInProgress := false
              trainingCompleted := true
              trainingCompletedAt := some e.timestamp }
  else t2

/-- The run state after ingesting a sequence of events into a run. -/
def runGateway (t0 : Tracking) (evs : List EventRecord) : Tracking :=
  evs.foldl trackEvent t0

/-- `actPreceded seen evs` holds when, scanning `evs` left to right
starting with activation already seen iff `seen`, every
training-completed event is preceded by some activation event. -/
def actPreceded : Bool → List EventRecord → Bool
  | _, [] => true
  | seen, e :: rest =>
      if e.event == evDone && !seen then false
      else actPreceded (seen || e.event == evAct) rest

lemma trackEvent_extensionActivated (t : Tracking) (e : EventRecord) :
    (trackEvent t e).extensionActivated =
      (t.extensionActivated || e.event == evAct) := by
  by_cases hA : (!t.extensionActivated && e.event == evAct) = true
  · rcases Bool.and_eq_true _ _ ▸ hA with ⟨hna, ha⟩
    simp only [trackEvent, hA, if_true]
    by_cases hD : (e.event == evDone) = true <;>
      simp [hD, ha]
  · by_cases hD : (e.event == evDone) = true <;>
      simp only [trackEvent, hA, if_false, Bool.false_eq_true, hD] <;>
      simp <;>
      cases hact : t.extensionActivated <;>
      simp [hact] at hA ⊢ <;>
      simp [hA]

lemma trackEvent_firstActivationAt (t : Tracking) (e : EventRecord)
    (h : (trackEvent t e).extensionActivated = false) :
    (trackEvent t e).firstActivationAt = t.firstActivationAt := by
  have hact := trackEvent_extensionActivated t e
  rw [h] at hact
  have h1 : t.extensionActivated = false := by
    cases ht : t.extensionActivated <;> simp [ht] at hact ⊢
  have h2 : (e.event == evAct) = false := by
    cases he : e.event == evAct <;> simp [he] at hact ⊢
  have hA : (!t.extensionActivated && e.event == evAct) = false := by
    simp [h1, h2]
  by_cases hD : (e.event == evDone) = true <;>
    simp [trackEvent, hA, hD]

lemma trackEvent_preserves_inv (t : Tracking) (e : EventRecord)
    (hok : ¬((e.event == evDone) = true ∧ t.extensionActivated = false))
    (h2 : t.trainingCompleted = true → t.trainingInProgress = false)
    (h3 : t.trainingCompleted = true → t.extensionActivated = true) :
    ((trackEvent t e).trainingCompleted = true →
      (trackEvent t e).trainingInProgress = false) ∧
    ((trackEvent t e).trainingCompleted = true →
      (trackEvent t e).extensionActivated = true) := by
  by_cases hD : (e.event == evDone) = true
  · have hact : t.extensionActivated = true := by
      cases ht : t.extensionActivated
      · exact absurd ⟨hD, ht⟩ hok
      · rfl
    have hA : (!t.extensionActivated && e.event == evAct) = false := by
      simp [hact]
    simp [trackEvent, hA, hD, hact]
  · by_cases hA : (!t.extensionActivated && e.event == evAct) = true
    · have hc : t.trainingCompleted = false := by
        cases hcc : t.trainingCompleted
        · rfl
        · have := h3 hcc
          simp [this] at hA
      simp [trackEvent, hA, hD, hc]
    · simp [trackEvent, hA, hD]
      exact ⟨h2, h3⟩

lemma runGateway_inv :
    ∀ (evs : List EventRecord) (t : Tracking),
      actPreceded t.extensionActivated evs = true →
      (t.trainingCompleted = true → t.trainingInProgress = false) →
      (t.trainingCompleted = true → t.extensionActivated = true) →
      ((runGateway t evs).trainingCompleted = true →
        (runGateway t evs).trainingInProgress = false) ∧
      ((runGateway t evs).trainingCompleted = true →
        (runGateway t evs).extensionActivated = true)
  | [], t, _, h2, h3 => ⟨h2, h3⟩
  | e :: rest, t, h, h2, h3 => by
      have hok : ¬((e.event == evDone) = true ∧ t.extensionActivated = false) := by
        rintro ⟨hd, hna⟩
        rw [actPreceded, hna, hd] at h
        simp at h
      have hrest : actPreceded (trackEvent t e).extensionActivated rest = true := by
        rw [trackEvent_extensionActivated]
        rw [actPreceded] at h
        rcases hc : (e.event == evDone && !t.extensionActivated) with _ | _
        · rw [hc] at h
          simpa using h
        · rcases Bool.and_eq_true _ _ ▸ hc with ⟨hd, hna⟩
          exact absurd ⟨hd, by simpa using hna⟩ hok
      obtain ⟨g2, g3⟩ := trackEvent_preserves_inv t e hok h2 h3
      exact runGateway_inv rest (trackEvent t e) hrest g2 g3

lemma runGateway_firstAct :
    ∀ (evs : List EventRecord) (t : Tracking),
      (t.extensionActivated = false → t.firstActivationAt = none) →
      ((runGateway t evs).extensionActivated = false →
        (runGateway t evs).firstActivationAt = none)
  | [], t, h1 => h1
  | e :: rest, t, h1 => by
      refine runGateway_firstAct rest (trackEvent t e) ?_
      intro hna
      have ht : t.extensionActivated = false := by
        have := trackEvent_extensionActivated t e
        rw [hna] at this
        cases htt : t.extensionActivated <;> simp [htt] at this ⊢
      rw [trackEvent_firstActivationAt t e hna]
      exact h1 ht

/-- A sample freshly created run used in the concrete checks. -/
def sampleRun : Tracking :=
  freshTracking "alice@company.com".toList "Alice".toList [] [] 0

/-- A sample activation event. -/
def sampleAct : EventRecord := ⟨evAct, "console.cloud.google.com".toList, [], 1⟩

/-- A sample training-completed event. -/
def sampleDone : EventRecord := ⟨evDone, [], [], 2⟩

/-- Claim C3 counterexample: ingesting a training-completed event and
then an activation event drives the run into a state with
trainingCompleted and trainingInProgress both true, violating the
claimed invariant in a reachable state. -/
theorem flags_invariant_fails_on_reordered_events :
    (runGateway sampleRun [sampleDone, sampleAct]).trainingCompleted = true ∧
    (runGateway sampleRun [sampleDone, sampleAct]).trainingInProgress = true := by
  decide

/-- Claim C3 (amended): for every run created by /onboard and every
event sequence, extensionActivated = false implies firstActivationAt is
unset; and provided every training-completed event is preceded by an
activation event, trainingCompleted = true implies trainingInProgress =
false. -/
theorem gateway_flag_invariant (email name : Key)
    (cfgs : List (Key × List Char)) (wcfg : List Char) (now : Nat)
    (evs : List EventRecord) :
    ((runGateway (freshTracking email name cfgs wcfg now) evs).extensionActivated = false →
      (runGateway (freshTracking email name cfgs wcfg now) evs).firstActivationAt = none) ∧
    (actPreceded false evs = true →
      (runGateway (freshTracking email name cfgs wcfg now) evs).trainingCompleted = true →
      (runGateway (freshTracking email name cfgs wcfg now) evs).trainingInProgress = false) := by
  constructor
  · exact runGateway_firstAct evs _ (fun _ => rfl)
  · intro hseq
    exact (runGateway_inv evs (freshTracking email name cfgs wcfg now) hseq
      (fun h => by cases h) (fun h => by cases h)).1

/-- Concrete application of the amended Claim C3 theorem: activation
followed by completion satisfies the ordering condition and the
resulting state has trainingInProgress = false. -/
theorem gateway_flag_invariant_applied :
    (runGateway (freshTracking "alice@company.com".toList "Alice".toList [] [] 0)
        [sampleAct, sampleDone]).trainingInProgress = false := by
  exact (gateway_flag_invariant "alice@company.com".toList "Alice".toList [] [] 0
    [sampleAct, sampleDone]).2 (by decide) (by decide)

/-- Claim C4 counterexample: a training-completed event for a run that
never received an activation event is accepted, not rejected: the
trainingCompleted flag becomes true. -/
theorem completed_before_activation_accepted :
    (runGateway sampleRun [sampleDone]).trainingCompleted = true ∧
    runGateway sampleRun [sampleDone] ≠ runGateway sampleRun [] := by
  decide

/-- Claim C4 (amended): the training-completed event is processed
unconditionally and deterministically: from every run state, activated
or not, it appends the event to the log, clears trainingInProgress,
sets trainingCompleted and stamps trainingCompletedAt. -/
theorem completed_event_unconditional (t : Tracking) (e : EventRecord)
    (h : e.event = evDone) :
    trackEvent t e =
      { t with extensionEvents := t.extensionEvents ++ [e]
               trainingInProgress := false
               trainingCompleted := true
               trainingCompletedAt := some e.timestamp } := by
  have hne : (e.event == evAct) = false := by rw [h]; decide
  have hD : (e.event == evDone) = true := by rw [h]; simp
  have hA : (!t.extensionActivated && e.event == evAct) = false := by
    simp [hne]
  simp [trackEvent, hA, hD]

/-- Concrete application of the amended Claim C4 theorem on a fresh,
never-activated run. -/
theorem completed_event_unconditional_applied :
    trackEvent sampleRun sampleDone =
      { sampleRun with
          extensionEvents := sampleRun.extensionEvents ++ [sampleDone]
          trainingInProgress := false
          trainingCompleted := true
          trainingCompletedAt := some sampleDone.timestamp } :=
  completed_event_unconditional sampleRun sampleDone rfl

/-- Claim C7 counterexample: delivering the same activation event twice
does not produce the same final run state as delivering it once,
because every received event is appended to the event log. -/
theorem double_activation_states_differ :
    runGateway sampleRun [sampleAct, sampleAct] ≠
      runGateway sampleRun [sampleAct] := by
  decide

/-- Claim C7 (amended): the second receipt of an activation event is a
no-op on every field except the append-only event log: the flags and
the firstActivationAt timestamp are flipped exactly once, by the first
receipt. -/
theorem second_activation_appends_log_only (t : Tracking) (e : EventRecord)
    (h : e.event = evAct) :
    trackEvent (trackEvent t e) e =
      { trackEvent t e with
          extensionEvents := (trackEvent t e).extensionEvents ++ [e] } := by
  have ha : (e.event == evAct) = true := by rw [h]; simp
  have hnd : (e.event == evDone) = false := by rw [h]; decide
  have hact : (trackEvent t e).extensionActivated = true := by
    rw [trackEvent_extensionActivated, ha, Bool.or_true]
  generalize trackEvent t e = t1 at hact ⊢
  have hA : (!t1.extensionActivated && e.event == evAct) = false := by
    simp [hact]
  simp [trackEvent, hA, hnd]

/-- Concrete application of the amended Claim C7 theorem. -/
theorem second_activation_applied :
    trackEvent (trackEvent sampleRun sampleAct) sampleAct =
      { trackEvent sampleRun sampleAct with
          extensionEvents :=
            (trackEvent sampleRun sampleAct).extensionEvents ++ [sampleAct] } :=
  second_activation_appends_log_only sampleRun sampleAct rfl

/-! ## Registry maps and per-endpoint lookup disciplines
(src/backend/index.js, lines 1094-1116, 1225-1301, 1330-1350)

JS Map objects keyed by intern email are association lists; Map.get is
exact key equality, Map.set replaces or appends, Map.delete removes
the key. -/

/-- JS `map.get(k)`: exact-key lookup. -/
def mapGet {α : Type} : List (Key × α) → Key → Option α
  | [], _ => none
  | (k1, v) :: t, k => if k1 == k then some v else mapGet t k

/-- JS `map.set(k, v)`: replace the entry for `k` or append one. -/
def mapSet {α : Type} : List (Key × α) → Key → α → List (Key × α)
  | [], k, v => [(k, v)]
  | (k1, v1) :: t, k, v =>
      if k1 == k then (k, v) :: t else (k1, v1) :: mapSet t k v

/-- JS `map.delete(k)`. -/
def mapDelete {α : Type} (m : List (Key × α)) (k : Key) : List (Key × α) :=
  m.filter (fun p => !(p.1 == k))

/-- JS `Array.from(map.keys())`. -/
def mapKeys {α : Type} (m : List (Key × α)) : List Key :=
  m.map (fun p => p.1)

/-- The fallback scan of lines 1098-1107: iterate the entries and
return the first whose lowercased key equals the lowercased probe. -/
def scanCI {α : Type} : List (Key × α) → Key → Option α
  | [], _ => none
  | (k1, v) :: t, lk => if lowerL k1 == lk then some v else scanCI t lk

/-- Lines 1094-1107 (and identically 1330-1342): exact Map.get first,
then the case-insensitive fallback scan. -/
def lookupCI {α : Type} (m : List (Key × α)) (k : Key) : Option α :=
  match mapGet m k with
  | some v => some v
  | none => scanCI m (lowerL k)

/-- /track/extension-usage run resolution (lines 1094-1107). -/
def trackUsageLookup (m : List (Key × Tracking)) (k : Key) : Option Tracking :=
  lookupCI m k

/-- /extension/tasks run resolution (lines 1330-1342). -/
def tasksLookup (m : List (Key × Tracking)) (k : Key) : Option Tracking :=
  lookupCI m k

/-- /extension/state lookup (line 1247): exact Map.get only. -/
def extensionStateLookup (m : List (Key × Tracking)) (k : Key) : Option Tracking :=
  mapGet m k

/-- /extension/config lookup (line 1228): exact Map.get only. -/
def extensionConfigLookup (m : List (Key × Tracking)) (k : Key) : Option Tracking :=
  mapGet m k

/-- /workflow/state poll lookup (line 1273): exact Map.get only. -/
def workflowPollLookup (m : List (Key × Tracking)) (k : Key) : Option Tracking :=
  mapGet m k

lemma mapGet_lower_mem {α : Type} :
    ∀ (m : List (Key × α)) (k : Key) (v : α), mapGet m k = some v →
      lowerL k ∈ m.map (fun p => lowerL p.1)
  | [], k, v, h => by cases h
  | (k1, v1) :: t, k, v, h => by
      by_cases he : (k1 == k) = true
      · have hk : k1 = k := by simpa using he
        simp only [List.map_cons, List.mem_cons]
        exact Or.inl (by rw [hk])
      · rw [mapGet, if_neg he] at h
        simp only [List.map_cons, List.mem_cons]
        exact Or.inr (mapGet_lower_mem t k v h)

lemma lookupCI_eq_scan {α : Type} :
    ∀ (m : List (Key × α)) (k : Key),
      (m.map (fun p => lowerL p.1)).Nodup →
      lookupCI m k = scanCI m (lowerL k)
  | [], k, _ => rfl
  | (k1, v1) :: t, k, hnd => by
      have hnd2 : (t.map (fun p => lowerL p.1)).Nodup :=
        (List.nodup_cons.mp hnd).2
      have hhead : lowerL k1 ∉ t.map (fun p => lowerL p.1) :=
        (List.nodup_cons.mp hnd).1
      by_cases he : (k1 == k) = true
      · have hk : k1 = k := by simpa using he
        simp [lookupCI, mapGet, scanCI, he, hk]
      · rcases hg : mapGet t k with _ | w
        · have hm : mapGet ((k1, v1) :: t) k = none := by
            rw [mapGet, if_neg he]
            exact hg
          simp [lookupCI, hm]
        · have hm : mapGet ((k1, v1) :: t) k = some w := by
            rw [mapGet, if_neg he]
            exact hg
          have hlow : (lowerL k1 == lowerL k) = false := by
            cases hc : lowerL k1 == lowerL k
            · rfl
            · have : lowerL k1 = lowerL k := by simpa using hc
              rw [this] at hhead
              exact absurd (mapGet_lower_mem t k w hg) hhead
          have ht : lookupCI t k = scanCI t (lowerL k) :=
            lookupCI_eq_scan t k hnd2
          simp only [lookupCI, hm, scanCI, hlow, if_false, Bool.false_eq_true]
          simp only [lookupCI, hg] at ht
          exact ht

/-- Claim C5 counterexample: with a run stored for `User@Co.com`, the
run-state, config and workflow-poll lookups resolve the stored key but
not its lowercased variant, so two keys differing only in case do not
resolve to the same run on those endpoints. -/
theorem state_lookup_case_sensitive :
    lowerL "User@Co.com".toList = lowerL "user@co.com".toList ∧
    extensionStateLookup [("User@Co.com".toList, sampleRun)] "User@Co.com".toList
      = some sampleRun ∧
    extensionStateLookup [("User@Co.com".toList, sampleRun)] "user@co.com".toList
      = none ∧
    extensionConfigLookup [("User@Co.com".toList, sampleRun)] "user@co.com".toList
      = none ∧
    workflowPollLookup [("User@Co.com".toList, sampleRun)] "user@co.com".toList
      = none := by
  decide

/-- Claim C5 (amended): only progress-event ingestion and per-platform
task retrieval are case-insensitive: whenever the stored keys have
pairwise distinct lowercasings, those two lookups agree on any two keys
that differ only in case; run-state, config and workflow-poll lookups
use the exact stored key. -/
theorem ci_fallback_lookups_case_insensitive (m : List (Key × Tracking))
    (k1 k2 : Key) (hcase : lowerL k1 = lowerL k2)
    (hdist : (m.map (fun p => lowerL p.1)).Nodup) :
    trackUsageLookup m k1 = trackUsageLookup m k2 ∧
    tasksLookup m k1 = tasksLookup m k2 := by
  have h1 := lookupCI_eq_scan m k1 hdist
  have h2 := lookupCI_eq_scan m k2 hdist
  constructor
  · rw [trackUsageLookup, trackUsageLookup, h1, h2, hcase]
  · rw [tasksLookup, tasksLookup, h1, h2, hcase]

/-- Concrete application of the amended Claim C5 theorem: the ingestion
lookup resolves the differently-cased key to the stored run. -/
theorem ci_fallback_lookups_applied :
    trackUsageLookup [("User@Co.com".toList, sampleRun)] "User@Co.com".toList =
      trackUsageLookup [("User@Co.com".toList, sampleRun)] "user@co.com".toList := by
  exact (ci_fallback_lookups_case_insensitive
    [("User@Co.com".toList, sampleRun)]
    "User@Co.com".toList "user@co.com".toList (by decide) (by decide)).1

/-! ## Run creation (/onboard, lines 174-189) and the NotFound
responses (lines 1109-1116 and 1344-1350) -/

/-- Completion record of the onboardingCompletions map (lines
1472-1484). -/
structure CompletionRec where
  completed : Bool
  completedAt : Nat
deriving DecidableEq

/-- The /onboard run-creation effect on the two registry maps (lines
174-189): the tracking record for the email is overwritten
unconditionally with a fresh one, and any completion record for the
email is deleted; no duplicate check exists. -/
def onboardHandler (m : List (Key × Tracking))
    (completions : List (Key × CompletionRec)) (email : Key)
    (name : List Char) (cfgs : List (Key × List Char)) (wcfg : List Char)
    (now : Nat) :
    List (Key × Tracking) × List (Key × CompletionRec) :=
  (mapSet m email (freshTracking email name cfgs wcfg now),
   mapDelete completions email)

lemma mapGet_mapSet_self {α : Type} :
    ∀ (m : List (Key × α)) (k : Key) (v : α),
      mapGet (mapSet m k v) k = some v
  | [], k, v => by simp [mapSet, mapGet]
  | (k1, v1) :: t, k, v => by
      by_cases he : (k1 == k) = true
      · simp [mapSet, mapGet, he]
      · rw [mapSet, if_neg he, mapGet, if_neg he]
        exact mapGet_mapSet_self t k v

lemma mapGet_mapDelete_self {α : Type} :
    ∀ (m : List (Key × α)) (k : Key),
      mapGet (mapDelete m k) k = none
  | [], k => rfl
  | (k1, v1) :: t, k => by
      by_cases he : (k1 == k) = true
      · have : mapDelete ((k1, v1) :: t) k = mapDelete t k := by
          simp [mapDelete, List.filter, he]
        rw [this]
        exact mapGet_mapDelete_self t k
      · have : mapDelete ((k1, v1) :: t) k = (k1, v1) :: mapDelete t k := by
          simp [mapDelete, List.filter, he]
        rw [this, mapGet, if_neg he]
        exact mapGet_mapDelete_self t k

lemma mapGet_key_mem {α : Type} :
    ∀ (m : List (Key × α)) (k : Key) (v : α),
      mapGet m k = some v → k ∈ mapKeys m
  | [], k, v, h => by cases h
  | (k1, v1) :: t, k, v, h => by
      by_cases he : (k1 == k) = true
      · have hk : k1 = k := by simpa using he
        simp only [mapKeys, List.map_cons, List.mem_cons]
        exact Or.inl hk.symm
      · rw [mapGet, if_neg he] at h
        simp only [mapKeys, List.map_cons, List.mem_cons]
        exact Or.inr (mapGet_key_mem t k v h)

/-- An already-activated, non-terminal run used in the concrete
checks. -/
def activatedRun : Tracking := trackEvent sampleRun sampleAct

/-- Claim C8 counterexample: a second run-start request for a key that
already has an active, non-terminal run does not fail and does not
leave that run unchanged: the stored record is silently replaced by a
fresh initial-state one and the completion record for the key is
deleted. -/
theorem onboard_overwrites_existing_run :
    mapGet (onboardHandler
        (mapSet [] "alice@company.com".toList activatedRun)
        [("alice@company.com".toList, ⟨true, 5⟩)]
        "alice@company.com".toList "Alice".toList [] [] 9).1
      "alice@company.com".toList ≠ some activatedRun ∧
    mapGet (onboardHandler
        (mapSet [] "alice@company.com".toList activatedRun)
        [("alice@company.com".toList, ⟨true, 5⟩)]
        "alice@company.com".toList "Alice".toList [] [] 9).1
      "alice@company.com".toList =
      some (freshTracking "alice@company.com".toList "Alice".toList [] [] 9) ∧
    mapGet (onboardHandler
        (mapSet [] "alice@company.com".toList activatedRun)
        [("alice@company.com".toList, ⟨true, 5⟩)]
        "alice@company.com".toList "Alice".toList [] [] 9).2
      "alice@company.com".toList = none := by
  decide

/-- Claim C8 (amended): run initiation for a key with an existing run
never fails: it replaces the stored run with a fresh initial-state one
(all flags false) and deletes the completion record for the key; the
reset is implicit in every second run-start request, not a separate
caller decision. -/
theorem onboard_replaces_and_resets (m : List (Key × Tracking))
    (completions : List (Key × CompletionRec)) (email : Key)
    (name : List Char) (cfgs : List (Key × List Char)) (wcfg : List Char)
    (now : Nat) (t : Tracking)
    (hex : mapGet m email = some t) (hnt : t.trainingCompleted = false) :
    mapGet (onboardHandler m completions email name cfgs wcfg now).1 email =
      some (freshTracking email name cfgs wcfg now) ∧
    mapGet (onboardHandler m completions email name cfgs wcfg now).2 email =
      none ∧
    (freshTracking email name cfgs wcfg now).extensionActivated = false ∧
    (freshTracking email name cfgs wcfg now).trainingCompleted = false := by
  exact ⟨mapGet_mapSet_self m email _, mapGet_mapDelete_self completions email,
    rfl, rfl⟩

/-- Concrete application of the amended Claim C8 theorem. -/
theorem onboard_replaces_applied :
    mapGet (onboardHandler
        (mapSet [] "alice@company.com".toList activatedRun) []
        "alice@company.com".toList "Alice".toList [] [] 9).1
      "alice@company.com".toList =
      some (freshTracking "alice@company.com".toList "Alice".toList [] [] 9) := by
  exact (onboard_replaces_and_resets
    (mapSet [] "alice@company.com".toList activatedRun) []
    "alice@company.com".toList "Alice".toList [] [] 9 activatedRun
    (by decide) (by decide)).1

/-- Response of /track/extension-usage as far as run resolution is
concerned (lines 1109-1121). -/
inductive TrackResponse
  | tracked
  | internNotFound (availableInterns : List Key)
deriving DecidableEq

/-- Lines 1094-1116: resolve the run case-insensitively; on failure
respond 404 with the full key list of the tracking map. -/
def trackUsageResponse (m : List (Key × Tracking)) (k : Key) :
    TrackResponse :=
  match trackUsageLookup m k with
  | some _ => .tracked
  | none => .internNotFound (mapKeys m)

/-- Response of /extension/tasks (lines 1330-1380). -/
inductive TasksResponse
  | ok (cfg : List Char)
  | internNotFound (availableInterns : List Key)
  | noTaskConfigs
  | platformNotFound (availablePlatforms : List Key)
deriving DecidableEq

/-- Lines 1330-1380: resolve the run case-insensitively, then the
platform entry of its task configs; the unknown-intern 404 carries the
full key list of the tracking map. -/
def tasksResponse (m : List (Key × Tracking)) (k platform : Key) :
    TasksResponse :=
  match tasksLookup m k with
  | none => .internNotFound (mapKeys m)
  | some t =>
      match t.taskConfigs with
      | none => .noTaskConfigs
      | some cfgs =>
          match mapGet cfgs platform with
          | none => .platformNotFound (mapKeys cfgs)
          | some cfg => .ok cfg

/-- Claim C10: whenever a progress event or a per-platform task
retrieval names a key with no run (not even case-insensitively), the
response is the 404 body carrying availableInterns, which lists the key
of every tracked run. -/
theorem unknown_intern_gets_full_roster (m : List (Key × Tracking))
    (k platform : Key) (h : lookupCI m k = none) :
    trackUsageResponse m k = .internNotFound (mapKeys m) ∧
    tasksResponse m k platform = .internNotFound (mapKeys m) ∧
    ∀ k2 t, mapGet m k2 = some t → k2 ∈ mapKeys m := by
  refine ⟨?_, ?_, fun k2 t ht => mapGet_key_mem m k2 t ht⟩
  · rw [trackUsageResponse, trackUsageLookup, h]
  · rw [tasksResponse, tasksLookup, h]

/-- Concrete application of the Claim C10 theorem: an unknown email
receives the complete roster of tracked keys. -/
theorem unknown_intern_roster_applied :
    trackUsageResponse [("alice@company.com".toList, sampleRun)]
        "bob@company.com".toList =
      .internNotFound (mapKeys [("alice@company.com".toList, sampleRun)]) := by
  exact (unknown_intern_gets_full_roster
    [("alice@company.com".toList, sampleRun)]
    "bob@company.com".toList "jira".toList (by decide)).1

/-! ## Progress streaming (src/backend/index.js, lines 119-121) -/

/-- One progress frame `{ step, status, ...data }` as written by
sendProgress; the spread data payload is not inspected by any claim. -/
structure ProgressFrame where
  stepName : List Char
  status : List Char
deriving DecidableEq

/-- Lines 119-121: `sendProgress = (step, status, data) =>
res.write(...)` — one frame is appended to the SSE stream, with no
check of any kind against the frames already written. -/
def sendProgress (stream : List ProgressFrame) (stepName status : List Char) :
    List ProgressFrame :=
  stream ++ [⟨stepName, status⟩]

/-- Latest status a stream has announced for a given step. -/
def lastStatusFor (stream : List ProgressFrame) (stepName : List Char) :
    Option (List Char) :=
  match stream with
  | [] => none
  | f :: t =>
      match lastStatusFor t stepName with
      | some r => some r
      | none => if f.stepName == stepName then some f.status else none

/-- Modelled from the spec: the Step Ledger legal status transitions —
pending to running, running to completed, running to failed, failed to
running — with a step never yet named on the stream counted as pending.
This definition follows the words of the spec; no transition-validating
code exists in the source, so it is stated here only to be compared
against `sendProgress`. -/
def specLegalTransition (old : Option (List Char)) (new : List Char) : Bool :=
  match old with
  | none => new == "running".toList
  | some o =>
      (o == "pending".toList && new == "running".toList) ||
      (o == "running".toList &&
        (new == "completed".toList || new == "failed".toList)) ||
      (o == "failed".toList && new == "running".toList)

/-- Claim C9 counterexample: after `analyzing` has been announced
completed, announcing `analyzing` running again is illegal under the
legal-transition relation of the spec, yet sendProgress applies it and
changes the stream instead of failing and leaving it unchanged. -/
theorem sendProgress_accepts_illegal_transition :
    specLegalTransition
        (lastStatusFor
          (sendProgress (sendProgress [] "analyzing".toList "running".toList)
            "analyzing".toList "completed".toList)
          "analyzing".toList)
        "running".toList = false ∧
    sendProgress
        (sendProgress (sendProgress [] "analyzing".toList "running".toList)
          "analyzing".toList "completed".toList)
        "analyzing".toList "running".toList ≠
      sendProgress (sendProgress [] "analyzing".toList "running".toList)
        "analyzing".toList "completed".toList := by
  decide

/-- Claim C9 (amended): the source performs no step-status transition
validation: every frame, including one whose transition the legal
relation of the spec rejects, is appended to the stream unchanged;
there is no InvalidTransition outcome and the stream never stays
unchanged. -/
theorem sendProgress_no_validation (stream : List ProgressFrame)
    (stepName status : List Char)
    (hillegal :
      specLegalTransition (lastStatusFor stream stepName) status = false) :
    sendProgress stream stepName status = stream ++ [⟨stepName, status⟩] ∧
    sendProgress stream stepName status ≠ stream := by
  refine ⟨rfl, ?_⟩
  intro h
  have hlen := congrArg List.length h
  simp [sendProgress] at hlen

/-- Concrete application of the amended Claim C9 theorem. -/
theorem sendProgress_no_validation_applied :
    sendProgress (sendProgress [] "generating".toList "completed".toList)
        "generating".toList "completed".toList =
      sendProgress [] "generating".toList "completed".toList ++
        [⟨"generating".toList, "completed".toList⟩] := by
  exact (sendProgress_no_validation
    (sendProgress [] "generating".toList "completed".toList)
    "generating".toList "completed".toList (by decide)).1

/-! ## Delivery Multiplexer: push and poll on the tracking paths
(src/backend/index.js, lines 1125-1222) -/

/-- One SSE frame `{ step, status, message }` pushed by the tracking
handler through the stored sendProgress of the session. -/
structure SseFrame where
  stepName : List Char
  status : List Char
  message : List Char
deriving DecidableEq

/-- Line 1171: the frame announcing the opened phase completed. -/
def openedDoneFrame (name : List Char) : SseFrame :=
  ⟨"opened".toList, "completed".toList, name ++ " opened the AI Coach!".toList⟩

/-- Line 1177: the frame announcing the onboarding phase running. -/
def onboardingRunningFrame (name : List Char) : SseFrame :=
  ⟨"onboarding".toList, "running".toList,
   name ++ " is completing onboarding tasks...".toList⟩

/-- Line 1199: the frame announcing the onboarding phase completed. -/
def onboardingCompletedFrame (name : List Char) : SseFrame :=
  ⟨"onboarding".toList, "completed".toList,
   name ++ " completed all onboarding tasks!".toList⟩

/-- Line 1205: the final fully-onboarded frame. -/
def onboardedFrame (name : List Char) : SseFrame :=
  ⟨"onboarded".toList, "completed".toList,
   name ++ " is now fully onboarded! 🎉".toList⟩

/-- The poll-fallback record written into workflowStates (lines
1158-1165). -/
structure WorkflowSnapshot where
  stepName : List Char
  status : List Char
  message : List Char
  extensionActivated : Bool
  trainingInProgress : Bool
  timestamp : Nat
deriving DecidableEq

/-- Lines 1158-1165: the snapshot stored on activation; the handler
clock is identified with the event timestamp. -/
def activationSnapshot (name : List Char) (ts : Nat) : WorkflowSnapshot :=
  ⟨"onboarding".toList, "running".toList,
   name ++ " is completing onboarding tasks...".toList, true, true, ts⟩

/-- The tracking-handler view of one run: its tracking record, its
workflowStates entry (the poll snapshot), whether an SSE session is
attached, and every frame ever pushed on the live channel. -/
structure GatewayState where
  tracking : Tracking
  workflowState : Option WorkflowSnapshot
  channelAttached : Bool
  pushed : List SseFrame
deriving DecidableEq

/-- Lines 1125-1222 of /track/extension-usage for an event that
resolved to this run: the event is always logged into the tracking
record; a first activation writes the poll snapshot unconditionally and
pushes the opened/onboarding frames when a session is attached; a
training-completed event pushes the completion frames and closes the
session when one is attached, and never writes the poll snapshot. -/
def trackHandler (s : GatewayState) (e : EventRecord) : GatewayState :=
  { tracking := trackEvent s.tracking e
    workflowState :=
      if !s.tracking.extensionActivated && e.event == evAct then
        some (activationSnapshot s.tracking.internName e.timestamp)
      else s.workflowState
    pushed := s.pushed ++
      (if (!s.tracking.extensionActivated && e.event == evAct) &&
          s.channelAttached then
        [openedDoneFrame s.tracking.internName,
         onboardingRunningFrame s.tracking.internName]
      else []) ++
      (if (e.event == evDone) && s.channelAttached then
        [onboardingCompletedFrame s.tracking.internName,
         onboardedFrame s.tracking.internName]
      else [])
    channelAttached := s.channelAttached && !(e.event == evDone) }

/-- Claim C6 counterexample: with a live channel attached, after an
activation and then a training-completed event the channel has been
told `onboarded / completed` while the poll snapshot still says
`onboarding / running`: push and poll state diverge after the
training-completed publish. -/
theorem push_poll_divergence_after_completion :
    ((trackHandler (trackHandler ⟨sampleRun, none, true, []⟩ sampleAct)
        sampleDone).pushed.getLast?.map (fun f => (f.stepName, f.status)))
      = some ("onboarded".toList, "completed".toList) ∧
    ((trackHandler (trackHandler ⟨sampleRun, none, true, []⟩ sampleAct)
        sampleDone).workflowState.map (fun w => (w.stepName, w.status)))
      = some ("onboarding".toList, "running".toList) ∧
    ((trackHandler (trackHandler ⟨sampleRun, none, true, []⟩ sampleAct)
        sampleDone).workflowState.map (fun w => (w.stepName, w.status))) ≠
      ((trackHandler (trackHandler ⟨sampleRun, none, true, []⟩ sampleAct)
        sampleDone).pushed.getLast?.map (fun f => (f.stepName, f.status))) := by
  decide

/-- Claim C6 (amended): the poll snapshot is written only by the
activation transition — there it equals, in step, status and message,
the last frame pushed (or that would have been pushed) on the live
channel, and it is written whether or not a channel is attached; the
training-completed transition pushes on the live channel but never
updates the poll snapshot. -/
theorem snapshot_update_policy (s : GatewayState) (e : EventRecord) :
    (e.event = evDone →
      (trackHandler s e).workflowState = s.workflowState) ∧
    (e.event = evAct → s.tracking.extensionActivated = false →
      (trackHandler s e).workflowState =
        some (activationSnapshot s.tracking.internName e.timestamp) ∧
      (s.channelAttached = true →
        (trackHandler s e).pushed = s.pushed ++
          [openedDoneFrame s.tracking.internName,
           onboardingRunningFrame s.tracking.internName]) ∧
      (s.channelAttached = false → (trackHandler s e).pushed = s.pushed) ∧
      (activationSnapshot s.tracking.internName e.timestamp).stepName =
        (onboardingRunningFrame s.tracking.internName).stepName ∧
      (activationSnapshot s.tracking.internName e.timestamp).status =
        (onboardingRunningFrame s.tracking.internName).status ∧
      (activationSnapshot s.tracking.internName e.timestamp).message =
        (onboardingRunningFrame s.tracking.internName).message) := by
  constructor
  · intro hd
    have hna : (e.event == evAct) = false := by rw [hd]; decide
    simp [trackHandler, hna]
  · intro ha hact
    have hae : (e.event == evAct) = true := by rw [ha]; simp
    have hnd : (e.event == evDone) = false := by rw [ha]; decide
    refine ⟨by simp [trackHandler, hae, hact], ?_, ?_, rfl, rfl, rfl⟩
    · intro hch
      simp [trackHandler, hae, hact, hch, hnd]
    · intro hch
      simp [trackHandler, hae, hact, hch, hnd]

/-- Concrete application of the amended Claim C6 theorem: the
training-completed publish leaves the poll snapshot untouched. -/
theorem snapshot_update_policy_applied :
    (trackHandler (trackHandler ⟨sampleRun, none, true, []⟩ sampleAct)
        sampleDone).workflowState =
      (trackHandler ⟨sampleRun, none, true, []⟩ sampleAct).workflowState := by
  exact (snapshot_update_policy
    (trackHandler ⟨sampleRun, none, true, []⟩ sampleAct) sampleDone).1 rfl

end Onboardly
